import Mathlib

/-!
Shallow embedding of the hybrid retrieval pipeline of `automotive-gpt`
(`src/retrieval/{hybrid_retriever,sparse_retriever,reranker,dense_retriever}.py`).

Python strings are modelled as `List Char` (`PStr`), floats as `Rat`
(the arithmetic performed by the pipeline is exact divisions and sums, so
`Rat` reproduces it faithfully up to floating-point rounding), dicts as
association lists with unique keys, and the external collaborators
(OpenAI embedding + Pinecone dense index, the BM25 scoring library, the
Cohere rerank endpoint) as oracle functions supplied in a `RetrievalEnv`.
-/

namespace AutomotiveGpt

attribute [local semireducible] Rat.add Rat.mul Rat.inv Rat.sub Rat.ofScientific

/-- Python `str` modelled as a list of characters. -/
abbrev PStr := List Char

/-- Coerce a Lean string literal into the model's string type. -/
def pys (s : String) : PStr := s.toList

/-- Python's `str.lower()` (ASCII-faithful, which covers all vocabulary terms). -/
def lowerStr (s : PStr) : PStr := s.map Char.toLower

/-- ASCII whitespace recognised by `str.strip()`. -/
def isSpaceChar (c : Char) : Bool :=
  c = ' ' || c = '\t' || c = '\n' || c = '\r'

/-- Python's `str.strip()`: drop leading and trailing whitespace. -/
def stripStr (s : PStr) : PStr :=
  ((s.dropWhile isSpaceChar).reverse.dropWhile isSpaceChar).reverse

/-- Python's `needle in haystack` substring test. -/
def containsSub (haystack needle : PStr) : Bool :=
  match haystack with
  | [] => needle.isEmpty
  | _ :: rest => needle.isPrefixOf haystack || containsSub rest needle

/-- Fuel-driven worker for `replaceAll` (structural recursion on the fuel
so that the kernel can evaluate it; each step consumes at least one
character, so `s.length` fuel always suffices). -/
def replaceAllFuel (pat repl : PStr) : Nat → PStr → PStr
  | _, [] => []
  | 0, s => s
  | fuel + 1, a :: rest =>
    if !pat.isEmpty && pat.isPrefixOf (a :: rest) then
      repl ++ replaceAllFuel pat repl fuel ((a :: rest).drop pat.length)
    else
      a :: replaceAllFuel pat repl fuel rest

/-- Python's `str.replace(pat, repl)`: replace every occurrence of `pat`,
scanning left to right, non-overlapping.  (All patterns used by the code
are non-empty; for an empty pattern this returns the string unchanged.) -/
def replaceAll (pat repl : PStr) (s : PStr) : PStr :=
  replaceAllFuel pat repl s.length s

/-- Metadata / filter values (the JSON-ish scalars the pipeline stores). -/
inductive Val where
  | null
  | str (s : PStr)
  | int (n : Int)
  | bool (b : Bool)
deriving DecidableEq

/-- Python truthiness of a metadata value (used by the `or` fallback when
reading `chunk_id`). -/
def Val.isTruthy : Val → Bool
  | .null => false
  | .str s => !s.isEmpty
  | .int n => n != 0
  | .bool b => b

/-- A Python dict with string keys, modelled as an association list
(first binding wins, mirroring unique-key dicts). -/
abbrev Dict := List (PStr × Val)

/-- Python's `metadata.get(key)`: `None` (here `Val.null`) when absent. -/
def metaGet (m : Dict) (k : PStr) : Val :=
  (List.lookup k m).getD .null

/-- Structure `RetrievedChunk` (`dense_retriever.py`): the unit passed between all
retrieval stages.  Scores are exact rationals standing in for floats. -/
structure RetrievedChunk where
  text : PStr
  score : Rat
  metadata : Dict
deriving DecidableEq

/-! ### Stable descending sort

Python's `sorted(..., key=f, reverse=True)` is a stable sort placing larger
keys first; ties keep their original relative order.  We model it with a
stable insertion sort on the rational sort key. -/

/-- Insert `a` into an already descending-sorted list, before the first
element whose key is not larger (so `a` lands in front of later-occurring
equal keys: stability). -/
def insertByDesc (f : α → Rat) (a : α) : List α → List α
  | [] => [a]
  | b :: l => if f b ≤ f a then a :: b :: l else b :: insertByDesc f a l

/-- Stable descending insertion sort by the key `f` (models Python's
`sorted(..., key=f, reverse=True)`). -/
def sortByDesc (f : α → Rat) : List α → List α
  | [] => []
  | a :: l => insertByDesc f a (sortByDesc f l)

theorem mem_insertByDesc {f : α → Rat} {a x : α} {l : List α} :
    x ∈ insertByDesc f a l ↔ x = a ∨ x ∈ l := by
  induction l with
  | nil => simp [insertByDesc]
  | cons b l ih =>
    simp only [insertByDesc]
    split
    · simp
    · simp only [List.mem_cons, ih]
      tauto

theorem mem_sortByDesc {f : α → Rat} {x : α} {l : List α} :
    x ∈ sortByDesc f l ↔ x ∈ l := by
  induction l with
  | nil => simp [sortByDesc]
  | cons a l ih => simp [sortByDesc, mem_insertByDesc, ih]

theorem pairwise_insertByDesc {f : α → Rat} {a : α} {l : List α}
    (h : l.Pairwise (fun x y => f y ≤ f x)) :
    (insertByDesc f a l).Pairwise (fun x y => f y ≤ f x) := by
  induction l with
  | nil => simp [insertByDesc]
  | cons b l ih =>
    rcases List.pairwise_cons.mp h with ⟨hb, hl⟩
    simp only [insertByDesc]
    split
    · rename_i hba
      refine List.pairwise_cons.mpr ⟨?_, h⟩
      intro x hx
      rcases List.mem_cons.mp hx with rfl | hx
      · exact hba
      · exact le_trans (hb x hx) hba
    · rename_i hba
      refine List.pairwise_cons.mpr ⟨?_, ih hl⟩
      intro x hx
      rcases mem_insertByDesc.mp hx with rfl | hx
      · exact le_of_not_le hba
      · exact hb x hx

theorem pairwise_sortByDesc (f : α → Rat) (l : List α) :
    (sortByDesc f l).Pairwise (fun x y => f y ≤ f x) := by
  induction l with
  | nil => simp [sortByDesc]
  | cons a l ih => exact pairwise_insertByDesc ih

/-- Every element of a descending-sorted list has key at most the head's. -/
theorem sortByDesc_head_max {f : α → Rat} {l : List α} {y : α} {ys : List α}
    (h : sortByDesc f l = y :: ys) : ∀ x ∈ l, f x ≤ f y := by
  intro x hx
  have hp := pairwise_sortByDesc f l
  rw [h] at hp
  have hx' : x ∈ sortByDesc f l := mem_sortByDesc.mpr hx
  rw [h] at hx'
  rcases List.mem_cons.mp hx' with rfl | hx'
  · exact le_refl _
  · exact (List.pairwise_cons.mp hp).1 x hx'

/-- If two sort keys induce the same comparisons, the sorts agree. -/
theorem sortByDesc_congr {f g : α → Rat}
    (h : ∀ a b : α, f b ≤ f a ↔ g b ≤ g a) (l : List α) :
    sortByDesc f l = sortByDesc g l := by
  have hins : ∀ (a : α) (m : List α), insertByDesc f a m = insertByDesc g a m := by
    intro a m
    induction m with
    | nil => simp [insertByDesc]
    | cons b m ih =>
      simp only [insertByDesc]
      by_cases hc : g b ≤ g a
      · rw [if_pos ((h a b).mpr hc), if_pos hc]
      · rw [if_neg (fun hf => hc ((h a b).mp hf)), if_neg hc, ih]
  induction l with
  | nil => rfl
  | cons a l ih => simp only [sortByDesc, ih, hins]

/-! ### Sparse (BM25) retriever — `sparse_retriever.py`

The BM25 library (`rank_bm25.BM25Okapi`) and the Pinecone corpus fetch are
external collaborators; the corpus and the per-query raw score array are
inputs of the model.  Everything from `scored = sorted(...)` down is
translated from `SparseRetriever.retrieve`. -/

/-- One cached corpus entry (`{"text": ..., "metadata": ...}`). -/
structure CorpusDoc where
  text : PStr
  metadata : Dict
deriving DecidableEq

/-- The four filter keys supported by the retrievers. -/
def filterKeys : List PStr :=
  [pys "make", pys "model", pys "year", pys "subsystem"]

/-- Implements `SparseRetriever._matches_filter`: metadata satisfies every active
filter among the four supported keys. -/
def matchesFilter (metadata filters : Dict) : Bool :=
  filterKeys.all fun key =>
    match List.lookup key filters with
    | some v => if v ≠ Val.null then metaGet metadata key == v else true
    | none => true

/-- Python truthiness of the `filters` argument (`if filters and ...`):
`None` and the empty dict are both falsy. -/
def filterActive : Option Dict → Bool
  | none => false
  | some f => !f.isEmpty

/-- The result-collection loop of `SparseRetriever.retrieve`: walk the
descending `(raw_score, doc)` pairs, stop at the `top_k` budget or at the
first non-positive score, skip filtered documents, and emit chunks with
scores normalised by `maxScore`. -/
def sparseCollect (maxScore : Rat) (filters : Option Dict) :
    Nat → List (Rat × CorpusDoc) → List RetrievedChunk
  | _, [] => []
  | budget, (raw, doc) :: rest =>
    if budget = 0 then []
    else if raw ≤ 0 then []
    else if filterActive filters && !matchesFilter doc.metadata ((filters.getD []))
    then sparseCollect maxScore filters budget rest
    else { text := doc.text, score := raw / maxScore, metadata := doc.metadata }
      :: sparseCollect maxScore filters (budget - 1) rest

/-- Computes `max_score = scored[0][0] if scored and scored[0][0] > 0 else 1.0`:
the normalisation divisor, taken from the best raw score over the whole
scored corpus with fallback 1 when the list is empty or its best raw
score is non-positive. -/
def topRawScore : List (Rat × CorpusDoc) → Rat
  | (s, _) :: _ => if s > 0 then s else 1
  | [] => 1

/-- Implements `SparseRetriever.retrieve`, given the cached corpus and the raw BM25
score array for the query (one raw score per corpus document; `zip`
truncates to the shorter list exactly as Python's `zip` does). -/
def sparseRetrieve (corpus : List CorpusDoc) (scores : List Rat)
    (topK : Nat) (filters : Option Dict) : List RetrievedChunk :=
  let scored := sortByDesc (fun p => p.1) (List.zip scores corpus)
  sparseCollect (topRawScore scored) filters topK scored

/-! ### Reciprocal rank fusion — `HybridRetriever._reciprocal_rank_fusion`

Python keys the running dict by
`chunk.metadata.get("chunk_id") or str(hash(chunk.text))`.
A truthy `chunk_id` value is used as-is; otherwise the key is derived from
the chunk text. `FusionKey.contentHash` models `str(hash(text))`: it is a
function of the text alone (hash collisions between different texts, and
collisions between a hash string and a chunk-id string, are not modelled). -/

inductive FusionKey where
  | vid (v : Val)
  | contentHash (t : PStr)
deriving DecidableEq

/-- The dedup key of `_reciprocal_rank_fusion`. -/
def fusionKey (c : RetrievedChunk) : FusionKey :=
  match List.lookup (pys "chunk_id") c.metadata with
  | some v => if v.isTruthy then .vid v else .contentHash c.text
  | none => .contentHash c.text

/-- Computes `1.0 / (_RRF_K + rank)` with `_RRF_K = 60` and 1-indexed `rank`. -/
def rrfWeight (rank : Nat) : Rat := 1 / (60 + (rank : Rat))

/-- Total RRF contribution of key `k` from one ranked list, starting at
rank `rank` (the loop `enumerate(ranked_list, start=1)` accumulating
`1.0 / (_RRF_K + rank)` into `rrf_scores[key]`). -/
def listContrib (k : FusionKey) : Nat → List RetrievedChunk → Rat
  | _, [] => 0
  | rank, c :: rest =>
    (if fusionKey c = k then rrfWeight rank else 0) + listContrib k (rank + 1) rest

/-- The fused RRF score of key `k`: sum of its contributions over all
input lists (the final value of `rrf_scores[k]`). -/
def fusedScore (lists : List (List RetrievedChunk)) (k : FusionKey) : Rat :=
  (lists.map (listContrib k 1)).sum

/-- Keep-first deduplication with an accumulator of already-seen keys
(dict insertion order: the first encounter of a key fixes its position). -/
def dedupFirstAux [DecidableEq α] (seen : List α) : List α → List α
  | [] => []
  | a :: l =>
    if a ∈ seen then dedupFirstAux seen l
    else a :: dedupFirstAux (a :: seen) l

/-- Order-preserving dedup: first occurrences, in encounter order. -/
def dedupFirst [DecidableEq α] (l : List α) : List α := dedupFirstAux [] l

/-- The keys of `rrf_scores` in dict insertion order: first encounter over
the concatenation of the input lists. -/
def allKeys (lists : List (List RetrievedChunk)) : List FusionKey :=
  dedupFirst ((lists.flatten).map fusionKey)

/-- Reads `chunk_map[key]`: the first chunk encountered with this key. -/
def chunkForKey (lists : List (List RetrievedChunk)) (k : FusionKey) :
    Option RetrievedChunk :=
  (lists.flatten).find? (fun c => fusionKey c == k)

/-- Implements `HybridRetriever._reciprocal_rank_fusion`: sort the accumulated keys by
descending fused score (Python's stable `sorted`) and rebuild chunks from
`chunk_map`, replacing each score with the fused score. -/
def reciprocalRankFusion (lists : List (List RetrievedChunk)) : List RetrievedChunk :=
  (sortByDesc (fusedScore lists) (allKeys lists)).filterMap fun k =>
    (chunkForKey lists k).map fun c =>
      { text := c.text, score := fusedScore lists k, metadata := c.metadata }

/-! ### Cross-encoder reranker — `reranker.py`

The Cohere endpoint is an external collaborator: an oracle taking the
query, the submitted document strings and the requested `top_n`, returning
`{index, relevance_score}` entries (sorted by the service).  We count the
number of service calls a retrieval makes as an explicit second component.
Out-of-range indices from the service are dropped (Python would raise);
no theorem below depends on that corner. -/

/-- One entry of the Cohere rerank response. -/
structure RerankEntry where
  index : Nat
  relevanceScore : Rat
deriving DecidableEq

/-- All external collaborators of the pipeline. -/
structure RetrievalEnv where
  /-- Oracle for `DenseRetriever.retrieve`: embedding + Pinecone cosine query. -/
  denseRetrieve : PStr → Option Dict → List RetrievedChunk
  /-- The cached BM25 corpus (built from Pinecone metadata). -/
  bm25Corpus : List CorpusDoc
  /-- Oracle for `BM25Okapi.get_scores(tokenised_query)`: one raw score per corpus doc. -/
  bm25Scores : PStr → List Rat
  /-- The Cohere rerank endpoint. -/
  rerankService : PStr → List PStr → Nat → List RerankEntry

/-- Implements `Reranker.rerank`: empty candidates short-circuit with no service call;
otherwise one service call is made with `top_n = min(self.top_n,
len(candidates))` and each response entry is mapped back onto the original
candidate, replacing its score with the relevance score. -/
def rerankerRerank (env : RetrievalEnv) (topN : Nat) (query : PStr)
    (candidates : List RetrievedChunk) : List RetrievedChunk × Nat :=
  if candidates.isEmpty then ([], 0)
  else
    let docs := candidates.map (·.text)
    let response := env.rerankService query docs (min topN candidates.length)
    (response.filterMap fun r =>
      (candidates[r.index]?).map fun orig =>
        { text := orig.text, score := r.relevanceScore, metadata := orig.metadata },
     1)

/-! ### Hybrid orchestrator — `hybrid_retriever.py` -/

/-- Resolved settings of a `HybridRetriever` instance (`top_k` defaults to
`settings.top_k_retrieval = 10`, `rerank_n` to `settings.rerank_top_n = 5`). -/
structure HybridConfig where
  topK : Nat
  rerankN : Nat
deriving DecidableEq

/-- The default settings (`top_k_retrieval = 10`, `rerank_top_n = 5`). -/
def defaultConfig : HybridConfig := ⟨10, 5⟩

/-- The fused dense+sparse candidate pool of a single query
(steps 1–3 of `_retrieve_single`). -/
def mergedPool (env : RetrievalEnv) (cfg : HybridConfig)
    (query : PStr) (filters : Option Dict) : List RetrievedChunk :=
  reciprocalRankFusion
    [env.denseRetrieve query filters,
     sparseRetrieve env.bm25Corpus (env.bm25Scores query) cfg.topK filters]

/-- Implements `HybridRetriever._retrieve_single`: dense + sparse retrieval, RRF merge,
Cohere rerank.  The `topk` parameter is accepted but never read — exactly
as in the Python, whose `top_k` parameter is dead.  Returns the result list
and the number of rerank-service calls made. -/
def retrieveSingle (env : RetrievalEnv) (cfg : HybridConfig)
    (query : PStr) (filters : Option Dict) (topk : Option Nat) :
    List RetrievedChunk × Nat :=
  rerankerRerank env cfg.rerankN query (mergedPool env cfg query filters)

/-- The `comparison_keywords` list, in source order. -/
def comparisonKeywords : List PStr :=
  [pys "compare", pys "vs", pys "versus", pys "between", pys "difference"]

/-- The `vehicle_terms` mapping, in dict insertion order (note that `f-150` and `f150`
both map to the same canonical name). -/
def vehicleTerms : List (PStr × PStr) :=
  [(pys "civic", pys "Honda Civic"),
   (pys "camry", pys "Toyota Camry"),
   (pys "f-150", pys "Ford F-150"),
   (pys "f150", pys "Ford F-150"),
   (pys "model 3", pys "Tesla Model 3")]

/-- Computes `is_comparison`: some trigger word is a substring of the lowercased query. -/
def isComparisonQuery (query : PStr) : Bool :=
  comparisonKeywords.any fun kw => containsSub (lowerStr query) kw

/-- The `vehicles` list: canonical names of every alias occurring in the
lowercased query, in vocabulary order, duplicates of the same canonical
name included with multiplicity. -/
def matchedVehicles (query : PStr) : List PStr :=
  (vehicleTerms.filter fun p => containsSub (lowerStr query) p.1).map (·.2)

/-- One pass of the topic clean-up inside the fan-out loop: strip every
vehicle alias, then every trigger word, then surrounding whitespace. -/
def cleanTopic (topic : PStr) : PStr :=
  stripStr (comparisonKeywords.foldl (fun t kw => replaceAll kw [] t)
    (vehicleTerms.foldl (fun t p => replaceAll p.1 [] t) topic))

/-- One iteration of the fan-out loop: clean the running topic, build the
derived query `f"{topic} {vehicle}"`, run `_retrieve_single(..., top_k=3)`
and append the top 2 of its results. -/
def fanOutStep (env : RetrievalEnv) (cfg : HybridConfig) (filters : Option Dict)
    (acc : PStr × List RetrievedChunk × Nat) (vehicle : PStr) :
    PStr × List RetrievedChunk × Nat :=
  let topic := cleanTopic acc.1
  let sub := retrieveSingle env cfg (topic ++ ' ' :: vehicle) filters (some 3)
  (topic, acc.2.1 ++ sub.1.take 2, acc.2.2 + sub.2)

/-- Implements `HybridRetriever.retrieve`: comparison detection, fan-out for ≥ 2 alias
matches, otherwise the normal single-query pipeline.  The public `topk`
argument is forwarded to `_retrieve_single`, which ignores it (dead
parameter, as in the source).  Returns the results and the number of
rerank-service calls. -/
def hybridRetrieve (env : RetrievalEnv) (cfg : HybridConfig)
    (query : PStr) (filters : Option Dict) (topk : Option Nat) :
    List RetrievedChunk × Nat :=
  if isComparisonQuery query then
    let vehicles := matchedVehicles query
    if 2 ≤ vehicles.length then
      let fold := vehicles.foldl (fanOutStep env cfg filters) (lowerStr query, [], 0)
      (fold.2.1.take 5, fold.2.2)
    else retrieveSingle env cfg query filters topk
  else retrieveSingle env cfg query filters topk

/-! ### Derived characterizations and spec-side definitions -/

/-- The exact condition under which `HybridRetriever.retrieve` enters the
comparison fan-out branch: a trigger word is a substring of the lowercased
query and at least two alias matches occur (with multiplicity). -/
def takesComparisonPath (query : PStr) : Bool :=
  isComparisonQuery query && decide (2 ≤ (matchedVehicles query).length)

/-- The comparison fan-out branch of `HybridRetriever.retrieve` as a
standalone function: per-vehicle sub-retrievals, top 2 of each
concatenated, truncated to 5, with the rerank-call count. -/
def comparisonRetrieve (env : RetrievalEnv) (cfg : HybridConfig)
    (query : PStr) (filters : Option Dict) : List RetrievedChunk × Nat :=
  let fold := (matchedVehicles query).foldl (fanOutStep env cfg filters)
    (lowerStr query, [], 0)
  (fold.2.1.take 5, fold.2.2)

/-- The derived sub-queries of the fan-out loop, given the running topic
(threaded through `cleanTopic` exactly as the loop mutates `topic`). -/
def fanOutQueriesAux : PStr → List PStr → List PStr
  | _, [] => []
  | topic, v :: vs =>
    (cleanTopic topic ++ ' ' :: v) :: fanOutQueriesAux (cleanTopic topic) vs

/-- All derived sub-queries `f"{topic} {vehicle}"` issued by the
comparison fan-out for a query. -/
def fanOutQueries (query : PStr) : List PStr :=
  fanOutQueriesAux (lowerStr query) (matchedVehicles query)

/-- The running topic after processing a list of vehicles (the fan-out
loop re-cleans `topic` once per iteration). -/
def topicAfter : PStr → List PStr → PStr
  | topic, [] => topic
  | topic, _ :: vs => topicAfter (cleanTopic topic) vs

/-- Modelled from the spec: the filter predicate exactly as claimed — a
document matches iff *every* filter key present with a non-null value has
an exactly-equal metadata value (a missing metadata key fails).  Stated
over all filter keys, not just the four supported ones; used to compare
the claimed semantics against `matchesFilter`. -/
def specFilterMatch (metadata filters : Dict) : Bool :=
  filters.all fun kv => kv.2 == Val.null || metaGet metadata kv.1 == kv.2

/-- Modelled from the spec, restricted to the four supported keys — the
amended filter semantics. -/
def specFilterMatchSupported (metadata filters : Dict) : Bool :=
  filters.all fun kv =>
    !(filterKeys.contains kv.1) || kv.2 == Val.null || metaGet metadata kv.1 == kv.2

/-! ### Concrete instances used by witnesses and counterexamples -/

/-- A rerank service that honours the request: echoes the first
`min(top_n, len(docs))` candidate indices with relevance 1. -/
def svcEcho : PStr → List PStr → Nat → List RerankEntry :=
  fun _ docs n => (List.range (min n docs.length)).map fun i => ⟨i, 1⟩

def chunkA : RetrievedChunk := ⟨pys "alpha", 9/10, [(pys "chunk_id", Val.str (pys "a1"))]⟩

def chunkB : RetrievedChunk := ⟨pys "beta", 7/10, [(pys "chunk_id", Val.str (pys "b1"))]⟩

def chunkC : RetrievedChunk := ⟨pys "gamma", 6/10, [(pys "chunk_id", Val.str (pys "c1"))]⟩

def chunkD : RetrievedChunk := ⟨pys "delta", 5/10, [(pys "chunk_id", Val.str (pys "d1"))]⟩

/-- Two chunks with identical text, both carrying an *empty-string*
`chunk_id`, but otherwise different metadata. -/
def chunkE1 : RetrievedChunk :=
  ⟨pys "shared text", 9/10, [(pys "chunk_id", Val.str []), (pys "page", Val.int 1)]⟩

def chunkE2 : RetrievedChunk :=
  ⟨pys "shared text", 4/10, [(pys "chunk_id", Val.str []), (pys "page", Val.int 2)]⟩

/-- Environment whose dense retriever always finds exactly `chunkA`, with
an empty BM25 corpus and the echoing rerank service. -/
def envEcho1 : RetrievalEnv := ⟨fun _ _ => [chunkA], [], fun _ => [], svcEcho⟩

/-- Environment whose dense retriever always finds four chunks. -/
def envEcho4 : RetrievalEnv :=
  ⟨fun _ _ => [chunkA, chunkB, chunkC, chunkD], [], fun _ => [], svcEcho⟩

/-- A `HybridRetriever(rerank_n=1)` configuration. -/
def cfgRerank1 : HybridConfig := ⟨10, 1⟩

def docToyota : CorpusDoc := ⟨pys "toyota doc", [(pys "make", Val.str (pys "Toyota"))]⟩

def docHonda : CorpusDoc := ⟨pys "honda doc", [(pys "make", Val.str (pys "Honda"))]⟩

/-! ## Lemmas about reciprocal rank fusion -/

/-- A list without any occurrence of key `k` contributes nothing. -/
theorem listContrib_eq_zero {k : FusionKey} {l : List RetrievedChunk}
    (h : l.countP (fun c => fusionKey c == k) = 0) (s : Nat) :
    listContrib k s l = 0 := by
  induction l generalizing s with
  | nil => rfl
  | cons a t ih =>
    rw [List.countP_cons] at h
    have ha : ¬(fusionKey a == k) = true := by
      intro hx
      simp [hx] at h
    have ht : t.countP (fun c => fusionKey c == k) = 0 := by omega
    have ha' : fusionKey a ≠ k := by
      intro hx
      exact ha (by simp [hx])
    simp [listContrib, ha', ih ht]

/-- A list containing key `k` exactly once, at 0-based index `i`,
contributes exactly the reciprocal-rank weight of rank `s + i` when
enumeration starts at rank `s`. -/
theorem listContrib_single {k : FusionKey} :
    ∀ (l : List RetrievedChunk) (s i : Nat) (hi : i < l.length),
      fusionKey l[i] = k → l.countP (fun c => fusionKey c == k) = 1 →
      listContrib k s l = rrfWeight (s + i)
  | [], _, i, hi, _, _ => absurd hi (by simp)
  | a :: t, s, 0, _, hk, hc => by
    have ha : fusionKey a = k := by simpa using hk
    rw [List.countP_cons] at hc
    simp only [ha, beq_self_eq_true, if_pos] at hc
    have ht : t.countP (fun c => fusionKey c == k) = 0 := by omega
    simp [listContrib, ha, listContrib_eq_zero ht]
  | a :: t, s, j + 1, hi, hk, hc => by
    have hj : j < t.length := by
      have h' := hi
      simp only [List.length_cons] at h'
      omega
    have hkt : fusionKey t[j] = k := by simpa using hk
    rw [List.countP_cons] at hc
    have ha' : fusionKey a ≠ k := by
      intro hx
      simp only [hx, beq_self_eq_true, if_pos] at hc
      have ht : t.countP (fun c => fusionKey c == k) = 0 := by omega
      exact absurd (List.countP_eq_zero.mp ht _ (List.getElem_mem hj))
        (by simp [hkt])
    have ih := listContrib_single t (s + 1) j hj hkt (by
      rw [beq_eq_false_iff_ne.mpr ha'] at hc
      simpa using hc)
    have harith : s + 1 + j = s + (j + 1) := by omega
    simp [listContrib, ha', ih, harith]

/-- The fused score over a dense+sparse pair is the sum of the two
per-list contributions. -/
theorem fusedScore_pair (l1 l2 : List RetrievedChunk) (k : FusionKey) :
    fusedScore [l1, l2] k = listContrib k 1 l1 + listContrib k 1 l2 := by
  simp [fusedScore]

/-- The `fusionKey` of a chunk does not depend on its score. -/
theorem fusionKey_set_score (c : RetrievedChunk) (x : Rat) :
    fusionKey { c with score := x } = fusionKey c := rfl

/-- Every chunk emitted by the fusion merger carries exactly the fused
score of its own key. -/
theorem score_mem_rrf {lists : List (List RetrievedChunk)}
    {c : RetrievedChunk} (h : c ∈ reciprocalRankFusion lists) :
    c.score = fusedScore lists (fusionKey c) := by
  rcases List.mem_filterMap.mp h with ⟨k, _, hk⟩
  rcases Option.map_eq_some'.mp hk with ⟨c0, ho, hc0⟩
  have hkey : fusionKey c0 = k := by simpa using List.find?_some ho
  subst hc0
  show fusedScore lists k = fusedScore lists (fusionKey c0)
  rw [hkey]

/-- Deduplication of elements that were all seen already yields nothing. -/
theorem dedupFirstAux_eq_nil [DecidableEq α] {seen : List α} {l : List α}
    (h : ∀ y ∈ l, y ∈ seen) : dedupFirstAux seen l = [] := by
  induction l with
  | nil => rfl
  | cons a t ih =>
    have ha : a ∈ seen := h a (by simp)
    simp only [dedupFirstAux, if_pos ha]
    exact ih fun y hy => h y (by simp [hy])

/-- Appending elements already present in the prefix (or in `seen`) does
not change keep-first deduplication. -/
theorem dedupFirstAux_append_subset [DecidableEq α] :
    ∀ (xs : List α) (seen ys : List α), (∀ y ∈ ys, y ∈ xs ∨ y ∈ seen) →
      dedupFirstAux seen (xs ++ ys) = dedupFirstAux seen xs
  | [], seen, ys, h => by
    simp only [List.nil_append, dedupFirstAux]
    exact dedupFirstAux_eq_nil fun y hy => (h y hy).resolve_left (by simp)
  | x :: xs, seen, ys, h => by
    simp only [List.cons_append, dedupFirstAux]
    by_cases hx : x ∈ seen
    · rw [if_pos hx, if_pos hx]
      exact dedupFirstAux_append_subset xs seen ys fun y hy => by
        rcases h y hy with hy' | hy'
        · rcases List.mem_cons.mp hy' with rfl | hy''
          · exact Or.inr hx
          · exact Or.inl hy''
        · exact Or.inr hy'
    · rw [if_neg hx, if_neg hx]
      congr 1
      exact dedupFirstAux_append_subset xs (x :: seen) ys fun y hy => by
        rcases h y hy with hy' | hy'
        · rcases List.mem_cons.mp hy' with rfl | hy''
          · exact Or.inr (by simp)
          · exact Or.inl hy''
        · exact Or.inr (by simp [hy'])

/-- Keep-first dedup of `xs ++ ys` ignores `ys` when `ys ⊆ xs`. -/
theorem dedupFirst_append_subset [DecidableEq α] {xs ys : List α}
    (h : ∀ y ∈ ys, y ∈ xs) : dedupFirst (xs ++ ys) = dedupFirst xs :=
  dedupFirstAux_append_subset xs [] ys fun y hy => Or.inl (h y hy)

/-- Flattening `n + 1` copies of `L` gives `L` followed by `n` copies flattened. -/
theorem flatten_replicate_succ (n : Nat) (L : List α) :
    (List.replicate (n + 1) L).flatten = L ++ (List.replicate n L).flatten := rfl

/-- Members of the flattened replicate all come from `L`. -/
theorem mem_flatten_replicate {n : Nat} {L : List α} {x : α}
    (h : x ∈ (List.replicate n L).flatten) : x ∈ L := by
  induction n with
  | zero => simp at h
  | succ m ih =>
    rw [flatten_replicate_succ] at h
    rcases List.mem_append.mp h with h' | h'
    · exact h'
    · exact ih h'

/-- The key set (in first-encounter order) of `n ≥ 1` copies of `L` is the
key set of `L` alone. -/
theorem allKeys_replicate {N : Nat} (h : 1 ≤ N) (L : List RetrievedChunk) :
    allKeys (List.replicate N L) = allKeys [L] := by
  rcases Nat.exists_eq_add_of_le h with ⟨n, rfl⟩
  unfold allKeys
  rw [show (1 + n) = n + 1 from Nat.add_comm 1 n, flatten_replicate_succ,
    List.map_append]
  have hsub : ∀ y ∈ ((List.replicate n L).flatten).map fusionKey,
      y ∈ L.map fusionKey := by
    intro y hy
    rcases List.mem_map.mp hy with ⟨c, hc, rfl⟩
    exact List.mem_map.mpr ⟨c, mem_flatten_replicate hc, rfl⟩
  rw [dedupFirst_append_subset hsub]
  simp [dedupFirst]

/-- The fused score over `n` copies of `L` is `n` times the fused score
over `L` alone. -/
theorem fusedScore_replicate (N : Nat) (L : List RetrievedChunk) (k : FusionKey) :
    fusedScore (List.replicate N L) k = (N : Rat) * fusedScore [L] k := by
  unfold fusedScore
  rw [List.map_replicate, List.sum_replicate, nsmul_eq_mul]
  simp

/-- The representative chunk of each key is the same for `n ≥ 1` copies of
`L` as for `L` alone. -/
theorem chunkForKey_replicate {N : Nat} (h : 1 ≤ N) (L : List RetrievedChunk)
    (k : FusionKey) : chunkForKey (List.replicate N L) k = chunkForKey [L] k := by
  rcases Nat.exists_eq_add_of_le h with ⟨n, rfl⟩
  unfold chunkForKey
  rw [show (1 + n) = n + 1 from Nat.add_comm 1 n, flatten_replicate_succ,
    List.find?_append]
  have hnone : ∀ m : Nat, L.find? (fun c => fusionKey c == k) = none →
      ((List.replicate m L).flatten).find? (fun c => fusionKey c == k) = none := by
    intro m hm
    induction m with
    | zero => rfl
    | succ p ih =>
      rw [flatten_replicate_succ, List.find?_append, hm, ih]
      rfl
  rcases hL : L.find? (fun c => fusionKey c == k) with _ | c0
  · simp [hnone n hL, hL]
  · simp [hL]

/-! ## Claim theorems about fusion (C6, C8, C10) -/

/-- Claim C6: for two input ranked lists in which a chunk's dedup key `k`
occurs exactly once — at 0-based indices `i1` and `i2`, i.e. 1-indexed
ranks `i1 + 1` and `i2 + 1` — the fused score of that key, and the score
of every chunk returned for it by `_reciprocal_rank_fusion`, is exactly
`1/(60 + (i1+1)) + 1/(60 + (i2+1))`. -/
theorem C6_rrf_additivity (l1 l2 : List RetrievedChunk) (k : FusionKey)
    (i1 i2 : Nat) (h1 : i1 < l1.length) (hk1 : fusionKey l1[i1] = k)
    (hc1 : l1.countP (fun c => fusionKey c == k) = 1)
    (h2 : i2 < l2.length) (hk2 : fusionKey l2[i2] = k)
    (hc2 : l2.countP (fun c => fusionKey c == k) = 1) :
    fusedScore [l1, l2] k = rrfWeight (i1 + 1) + rrfWeight (i2 + 1) ∧
    ∀ c ∈ reciprocalRankFusion [l1, l2], fusionKey c = k →
      c.score = rrfWeight (i1 + 1) + rrfWeight (i2 + 1) := by
  have e1 : listContrib k 1 l1 = rrfWeight (1 + i1) :=
    listContrib_single l1 1 i1 h1 hk1 hc1
  have e2 : listContrib k 1 l2 = rrfWeight (1 + i2) :=
    listContrib_single l2 1 i2 h2 hk2 hc2
  have hmain : fusedScore [l1, l2] k = rrfWeight (i1 + 1) + rrfWeight (i2 + 1) := by
    rw [fusedScore_pair, e1, e2, Nat.add_comm 1 i1, Nat.add_comm 1 i2]
  refine ⟨hmain, fun c hc hck => ?_⟩
  rw [score_mem_rrf hc, hck, hmain]

theorem C6_witness :
    fusedScore [[chunkA], [chunkB, chunkA]] (fusionKey chunkA)
        = rrfWeight 1 + rrfWeight 2 ∧
      ∀ c ∈ reciprocalRankFusion [[chunkA], [chunkB, chunkA]],
        fusionKey c = fusionKey chunkA → c.score = rrfWeight 1 + rrfWeight 2 :=
  C6_rrf_additivity [chunkA] [chunkB, chunkA] (fusionKey chunkA) 0 1
    (by decide) (by decide) (by decide) (by decide) (by decide) (by decide)

/-- Claim C8: fusing `N ≥ 1` copies of a ranked list `L` yields exactly the
output of fusing `L` alone — the same chunks in the same relative order,
ties included — with every fused score scaled by exactly `N`. -/
theorem C8_fuse_replicate (L : List RetrievedChunk) (N : Nat) (h : 1 ≤ N) :
    reciprocalRankFusion (List.replicate N L)
      = (reciprocalRankFusion [L]).map
          fun c => { c with score := (N : Rat) * c.score } := by
  have hN : (0 : Rat) < N := by exact_mod_cast h
  have hscore : fusedScore (List.replicate N L)
      = fun k => (N : Rat) * fusedScore [L] k :=
    funext fun k => fusedScore_replicate N L k
  unfold reciprocalRankFusion
  rw [allKeys_replicate h, hscore,
    sortByDesc_congr (fun a b => mul_le_mul_left hN) (allKeys [L]),
    List.map_filterMap]
  apply List.filterMap_congr
  intro k _
  rw [chunkForKey_replicate h]
  rcases chunkForKey [L] k with _ | c0
  · rfl
  · rfl

theorem C8_witness :
    reciprocalRankFusion (List.replicate 2 [chunkA, chunkB])
      = (reciprocalRankFusion [[chunkA, chunkB]]).map
          fun c => { c with score := (2 : Rat) * c.score } :=
  C8_fuse_replicate [chunkA, chunkB] 2 (by decide)

/-- Claim C10: a chunk whose metadata maps `chunk_id` to the empty string
(a falsy value) is keyed by the content hash of its text, so two chunks
with identical text and empty-string chunk_ids share a key and are merged
into a single fused candidate even though the `chunk_id` key is present. -/
theorem C10_falsy_chunkId_content_key (c1 c2 : RetrievedChunk)
    (ht : c1.text = c2.text)
    (h1 : List.lookup (pys "chunk_id") c1.metadata = some (Val.str []))
    (h2 : List.lookup (pys "chunk_id") c2.metadata = some (Val.str [])) :
    fusionKey c1 = FusionKey.contentHash c1.text ∧
    fusionKey c1 = fusionKey c2 ∧
    (reciprocalRankFusion [[c1, c2]]).length = 1 := by
  have hkey1 : fusionKey c1 = FusionKey.contentHash c1.text := by
    simp [fusionKey, h1, Val.isTruthy]
  have hkey2 : fusionKey c2 = FusionKey.contentHash c2.text := by
    simp [fusionKey, h2, Val.isTruthy]
  have heq : fusionKey c1 = fusionKey c2 := by rw [hkey1, hkey2, ht]
  refine ⟨hkey1, heq, ?_⟩
  have hkeys : allKeys [[c1, c2]] = [fusionKey c1] := by
    have hmem : fusionKey c2 ∈ [fusionKey c1] := by simp [heq]
    simp [allKeys, dedupFirst, dedupFirstAux, if_pos hmem, heq]
  have hsort : sortByDesc (fusedScore [[c1, c2]]) (allKeys [[c1, c2]])
      = [fusionKey c1] := by
    rw [hkeys]
    rfl
  have hfind : chunkForKey [[c1, c2]] (fusionKey c1) = some c1 := by
    simp [chunkForKey, List.find?]
  unfold reciprocalRankFusion
  rw [hsort]
  simp [hfind]

theorem C10_witness :
    fusionKey chunkE1 = FusionKey.contentHash chunkE1.text ∧
    fusionKey chunkE1 = fusionKey chunkE2 ∧
    (reciprocalRankFusion [[chunkE1, chunkE2]]).length = 1 :=
  C10_falsy_chunkId_content_key chunkE1 chunkE2 (by decide) (by decide) (by decide)

/-! ## Lemmas about the sparse retriever (C3) -/

/-- Unfolding equation for `sparseRetrieve`. -/
theorem sparseRetrieve_eq (corpus : List CorpusDoc) (scores : List Rat)
    (topK : Nat) (filters : Option Dict) :
    sparseRetrieve corpus scores topK filters
      = sparseCollect (topRawScore (sortByDesc (fun p => p.1) (List.zip scores corpus)))
          filters topK (sortByDesc (fun p => p.1) (List.zip scores corpus)) := rfl

/-- Every chunk collected against a positive divisor bounding all raw
scores has normalised score at most 1. -/
theorem sparseCollect_score_le_one {maxScore : Rat} (hm : 0 < maxScore)
    (filters : Option Dict) :
    ∀ (l : List (Rat × CorpusDoc)) (b : Nat), (∀ x ∈ l, x.1 ≤ maxScore) →
      ∀ c ∈ sparseCollect maxScore filters b l, c.score ≤ 1
  | [], _, _, c, hc => absurd hc (by simp [sparseCollect])
  | (raw, doc) :: rest, b, hb, c, hc => by
    simp only [sparseCollect] at hc
    split at hc
    · exact absurd hc (by simp)
    · split at hc
      · exact absurd hc (by simp)
      · split at hc
        · exact sparseCollect_score_le_one hm filters rest b
            (fun x hx => hb x (by simp [hx])) c hc
        · rcases List.mem_cons.mp hc with rfl | hc'
          · have hraw : raw ≤ maxScore := hb (raw, doc) (by simp)
            exact (div_le_one hm).mpr hraw
          · exact sparseCollect_score_le_one hm filters rest (b - 1)
              (fun x hx => hb x (by simp [hx])) c hc'

/-- Core of claim C3: over any descending-sorted scored list, a non-empty
unfiltered collection attains maximum normalised score exactly 1. -/
theorem sparseCollect_top_max_one (l : List (Rat × CorpusDoc))
    (hp : l.Pairwise (fun a b => b.1 ≤ a.1)) (filters : Option Dict)
    (hf : filterActive filters = false) (topK : Nat)
    (hne : sparseCollect (topRawScore l) filters topK l ≠ []) :
    (∃ c ∈ sparseCollect (topRawScore l) filters topK l, c.score = 1) ∧
    ∀ c ∈ sparseCollect (topRawScore l) filters topK l, c.score ≤ 1 := by
  rcases l with _ | ⟨⟨s0, d0⟩, rest⟩
  · exact absurd rfl hne
  · rcases topK with _ | n
    · exact absurd (by simp [sparseCollect]) hne
    · by_cases hs0 : s0 > 0
      · have hmax : topRawScore ((s0, d0) :: rest) = s0 := by
          simp [topRawScore, hs0]
        rw [hmax]
        have hstep : sparseCollect s0 filters (n + 1) ((s0, d0) :: rest)
            = { text := d0.text, score := s0 / s0, metadata := d0.metadata }
              :: sparseCollect s0 filters n rest := by
          simp [sparseCollect, not_le.mpr hs0, hf]
        have hbound : ∀ x ∈ (s0, d0) :: rest, x.1 ≤ s0 := by
          intro x hx
          rcases List.mem_cons.mp hx with rfl | hx'
          · exact le_refl _
          · exact (List.pairwise_cons.mp hp).1 x hx'
        constructor
        · refine ⟨{ text := d0.text, score := s0 / s0, metadata := d0.metadata },
            ?_, div_self (ne_of_gt hs0)⟩
          rw [hstep]
          simp
        · exact sparseCollect_score_le_one hs0 filters ((s0, d0) :: rest)
            (n + 1) hbound
      · exact absurd (by simp [sparseCollect, topRawScore, le_of_not_lt hs0]) hne

/-- Claim C3 (amended): when no filter is active, every non-empty sparse
result set attains maximum score exactly 1: some returned chunk has score
1 and every returned chunk has score at most 1.  (The divisor is the
maximum raw score over the *whole scored corpus* — under an active filter
that excludes the top-scoring document the maximum returned score can be
strictly below 1, see the counterexample.) -/
theorem C3_sparse_norm_max_one (corpus : List CorpusDoc) (scores : List Rat)
    (topK : Nat) (filters : Option Dict) (hf : filterActive filters = false)
    (hne : sparseRetrieve corpus scores topK filters ≠ []) :
    (∃ c ∈ sparseRetrieve corpus scores topK filters, c.score = 1) ∧
    ∀ c ∈ sparseRetrieve corpus scores topK filters, c.score ≤ 1 := by
  rw [sparseRetrieve_eq] at hne ⊢
  exact sparseCollect_top_max_one _ (pairwise_sortByDesc _ _) filters hf topK hne

theorem C3_witness :
    (∃ c ∈ sparseRetrieve [docToyota, docHonda] [10, 5] 10 none, c.score = 1) ∧
    ∀ c ∈ sparseRetrieve [docToyota, docHonda] [10, 5] 10 none, c.score ≤ 1 :=
  C3_sparse_norm_max_one [docToyota, docHonda] [10, 5] 10 none
    (by decide) (by decide)

/-- Claim C3 fails as stated: with filter `{make: "Honda"}` the
top-scoring document (`docToyota`, raw score 10) is filtered out and the
only returned chunk has score `5/10 = 1/2`, so the non-empty result set's
maximum score is not 1. -/
theorem C3_counterexample :
    sparseRetrieve [docToyota, docHonda] [10, 5] 10
        (some [(pys "make", Val.str (pys "Honda"))])
      = [{ text := pys "honda doc", score := 1/2,
           metadata := [(pys "make", Val.str (pys "Honda"))] }] ∧
    ¬ ((1 : Rat) / 2 = 1) := by
  constructor
  · decide
  · decide

/-! ## Lemmas about filter matching (C5) -/

/-- In a dict with no duplicate keys, `lookup` finds exactly the bindings
that are present. -/
theorem lookup_eq_some_iff_mem {f : Dict} (hnd : (f.map Prod.fst).Nodup)
    {k : PStr} {v : Val} : List.lookup k f = some v ↔ (k, v) ∈ f := by
  induction f with
  | nil => simp
  | cons kv rest ih =>
    rcases kv with ⟨k', v'⟩
    simp only [List.map_cons, List.nodup_cons] at hnd
    rcases hnd with ⟨hk', hrest⟩
    by_cases hkk : k = k'
    · subst hkk
      simp only [List.lookup, beq_self_eq_true, if_pos, List.mem_cons]
      constructor
      · intro h
        exact Or.inl (by simpa using h.symm)
      · intro h
        rcases h with h | h
        · simp [Prod.ext_iff] at h
          simp [h]
        · exact absurd (List.mem_map.mpr ⟨(k, v), h, rfl⟩) hk'
    · have hbeq : (k == k') = false := beq_eq_false_iff_ne.mpr hkk
      simp only [List.lookup, hbeq, List.mem_cons]
      rw [ih hrest]
      constructor
      · exact Or.inr
      · intro h
        rcases h with h | h
        · exact absurd (congrArg Prod.fst h) hkk
        · exact h

/-- Restates `_matches_filter` in logical form: every *supported* filter key that
is present with a non-null value must match the metadata exactly
(`metaGet` returns `null` for missing keys, so a missing metadata key
fails against any non-null filter value). -/
theorem matchesFilter_iff (m f : Dict) :
    matchesFilter m f = true ↔
      ∀ key ∈ filterKeys, ∀ v : Val, List.lookup key f = some v →
        v ≠ Val.null → metaGet m key = v := by
  unfold matchesFilter
  rw [List.all_eq_true]
  constructor
  · intro h key hk v hv hvn
    have h' := h key hk
    simp only [hv] at h'
    rw [if_pos hvn] at h'
    exact eq_of_beq h'
  · intro h key hk
    rcases hv : List.lookup key f with _ | v
    · simp
    · simp only []
      by_cases hvn : v = Val.null
      · rw [if_neg (by simp [hvn])]
      · rw [if_pos hvn]
        exact beq_iff_eq.mpr (h key hk v hv hvn)

/-- The spec-modelled supported-keys predicate in logical form. -/
theorem specSupported_iff (m f : Dict) :
    specFilterMatchSupported m f = true ↔
      ∀ kv ∈ f, kv.1 ∈ filterKeys → kv.2 ≠ Val.null → metaGet m kv.1 = kv.2 := by
  unfold specFilterMatchSupported
  rw [List.all_eq_true]
  constructor
  · intro h kv hkv hk hn
    have h' := h kv hkv
    simp only [Bool.or_eq_true, Bool.not_eq_true', beq_iff_eq,
      List.elem_iff] at h'
    rcases h' with (h' | h') | h'
    · exact absurd hk (by simpa using h')
    · exact absurd h' hn
    · exact h'
  · intro h kv hkv
    simp only [Bool.or_eq_true, Bool.not_eq_true', beq_iff_eq,
      List.elem_iff]
    by_cases hk : kv.1 ∈ filterKeys
    · by_cases hn : kv.2 = Val.null
      · exact Or.inl (Or.inr hn)
      · exact Or.inr (h kv hkv hk hn)
    · exact Or.inl (Or.inl (by simpa using hk))

/-- Claim C5 (amended): for dicts with unique keys, `_matches_filter`
computes exactly the claimed semantics restricted to the four supported
filter keys (`make`, `model`, `year`, `subsystem`): every supported
filter key present with a non-null value must be matched exactly by the
metadata, and a missing metadata key fails; filter keys outside the
supported set are ignored (see the counterexample for why the
unrestricted claim fails). -/
theorem C5_supported_filter_semantics (metadata filters : Dict)
    (hnd : (filters.map Prod.fst).Nodup) :
    matchesFilter metadata filters = specFilterMatchSupported metadata filters := by
  have hA := matchesFilter_iff metadata filters
  have hB := specSupported_iff metadata filters
  have hAB : (∀ key ∈ filterKeys, ∀ v : Val, List.lookup key filters = some v →
      v ≠ Val.null → metaGet metadata key = v) ↔
      (∀ kv ∈ filters, kv.1 ∈ filterKeys → kv.2 ≠ Val.null →
        metaGet metadata kv.1 = kv.2) := by
    constructor
    · intro h kv hkv hk hn
      exact h kv.1 hk kv.2 ((lookup_eq_some_iff_mem hnd).mpr hkv) hn
    · intro h key hk v hv hn
      exact h (key, v) ((lookup_eq_some_iff_mem hnd).mp hv) hk hn
  by_cases hM : matchesFilter metadata filters = true
  · rw [hM, (hB.mpr (hAB.mp (hA.mp hM))).symm]
  · have hS : specFilterMatchSupported metadata filters = false :=
      Bool.eq_false_iff.mpr fun hS => hM (hA.mpr (hAB.mpr (hB.mp hS)))
    rw [Bool.not_eq_true] at hM
    rw [hM, hS]

theorem C5_witness :
    matchesFilter [(pys "make", Val.str (pys "Honda"))]
        [(pys "make", Val.str (pys "Honda")), (pys "model", Val.null)]
      = specFilterMatchSupported [(pys "make", Val.str (pys "Honda"))]
        [(pys "make", Val.str (pys "Honda")), (pys "model", Val.null)] :=
  C5_supported_filter_semantics _ _ (by decide)

/-- Claim C5 fails as stated: the filter key `color` is present with a
non-null value and the metadata (empty) does not match it, yet
`_matches_filter` returns true — unsupported keys are silently ignored,
contradicting the claimed "for every filter key" semantics
(`specFilterMatch` is the claim's predicate, modelled from the spec). -/
theorem C5_counterexample :
    matchesFilter [] [(pys "color", Val.str (pys "red"))] = true ∧
    specFilterMatch [] [(pys "color", Val.str (pys "red"))] = false := by
  constructor
  · decide
  · decide

/-! ## Lemmas about the reranker and the orchestrator (C1, C2, C4, C7, C9) -/

/-- The reranker makes one service call on non-empty input, none on empty
input. -/
theorem rerank_calls (env : RetrievalEnv) (topN : Nat) (query : PStr)
    (cands : List RetrievedChunk) :
    (rerankerRerank env topN query cands).2 = if cands.isEmpty then 0 else 1 := by
  unfold rerankerRerank
  split
  · rfl
  · rfl

/-- If the service honours the requested `top_n`, the reranker returns at
most `topN` results. -/
theorem rerank_length_le (env : RetrievalEnv) (topN : Nat) (query : PStr)
    (cands : List RetrievedChunk)
    (hsvc : ∀ q docs n, (env.rerankService q docs n).length ≤ n) :
    (rerankerRerank env topN query cands).1.length ≤ topN := by
  unfold rerankerRerank
  split
  · simp
  · refine le_trans (List.length_filterMap_le _ _) ?_
    exact le_trans (hsvc _ _ _) (min_le_left _ _)

/-- Function `_retrieve_single` makes exactly one rerank call when its fused pool
is non-empty, and none otherwise. -/
theorem retrieveSingle_calls (env : RetrievalEnv) (cfg : HybridConfig)
    (query : PStr) (filters : Option Dict) (topk : Option Nat) :
    (retrieveSingle env cfg query filters topk).2
      = if (mergedPool env cfg query filters).isEmpty then 0 else 1 :=
  rerank_calls env cfg.rerankN query (mergedPool env cfg query filters)

/-- Unrolling of the fan-out fold: the final topic, the concatenated
top-2 blocks, and the total rerank-call count. -/
theorem foldFan (env : RetrievalEnv) (cfg : HybridConfig) (filters : Option Dict) :
    ∀ (vehicles : List PStr) (topic : PStr) (res0 : List RetrievedChunk) (n0 : Nat),
      vehicles.foldl (fanOutStep env cfg filters) (topic, res0, n0)
        = (topicAfter topic vehicles,
           res0 ++ ((fanOutQueriesAux topic vehicles).map fun vq =>
             (retrieveSingle env cfg vq filters (some 3)).1.take 2).flatten,
           n0 + ((fanOutQueriesAux topic vehicles).map fun vq =>
             (retrieveSingle env cfg vq filters (some 3)).2).sum)
  | [], topic, res0, n0 => by simp [topicAfter, fanOutQueriesAux]
  | v :: vs, topic, res0, n0 => by
    rw [List.foldl_cons]
    show (vs.foldl (fanOutStep env cfg filters)
        (cleanTopic topic,
         res0 ++ (retrieveSingle env cfg (cleanTopic topic ++ ' ' :: v) filters
           (some 3)).1.take 2,
         n0 + (retrieveSingle env cfg (cleanTopic topic ++ ' ' :: v) filters
           (some 3)).2)) = _
    rw [foldFan env cfg filters vs (cleanTopic topic)]
    simp [topicAfter, fanOutQueriesAux, List.append_assoc, Nat.add_assoc]

/-- Total sub-retrieval rerank calls along a list of derived queries equal
the number of derived queries with a non-empty fused pool. -/
theorem sum_subcalls_eq_countP (env : RetrievalEnv) (cfg : HybridConfig)
    (filters : Option Dict) (qs : List PStr) :
    (qs.map fun vq => (retrieveSingle env cfg vq filters (some 3)).2).sum
      = qs.countP fun vq => !(mergedPool env cfg vq filters).isEmpty := by
  induction qs with
  | nil => rfl
  | cons q qs ih =>
    rw [List.map_cons, List.sum_cons, ih, List.countP_cons,
      retrieveSingle_calls]
    rcases he : (mergedPool env cfg q filters).isEmpty
    · simp [he, Nat.add_comm]
    · simp [he, Nat.add_comm]

/-- The orchestrator dispatches on exactly `takesComparisonPath`. -/
theorem hybridRetrieve_dispatch (env : RetrievalEnv) (cfg : HybridConfig)
    (query : PStr) (filters : Option Dict) (topk : Option Nat) :
    hybridRetrieve env cfg query filters topk
      = if takesComparisonPath query
        then comparisonRetrieve env cfg query filters
        else retrieveSingle env cfg query filters topk := by
  unfold hybridRetrieve takesComparisonPath comparisonRetrieve
  by_cases h1 : isComparisonQuery query = true
  · by_cases h2 : 2 ≤ (matchedVehicles query).length
    · simp [h1, h2]
    · simp [h1, h2]
  · simp [h1]

/-! ## Claim theorems about the orchestrator and reranker -/

/-- Claim C9: `Reranker.rerank` on an empty candidate list returns the
empty list with zero calls to the external rerank service. -/
theorem C9_rerank_empty (env : RetrievalEnv) (topN : Nat) (query : PStr) :
    rerankerRerank env topN query [] = ([], 0) := rfl

/-- Claim C1 fails as stated: on a detected comparison query the code
makes one rerank call per entity (here 2), because each fan-out
sub-retrieval runs `_retrieve_single`, which ends in `reranker.rerank`. -/
theorem C1_counterexample :
    takesComparisonPath (pys "compare civic vs camry") = true ∧
    (hybridRetrieve envEcho1 defaultConfig
      (pys "compare civic vs camry") none none).2 = 2 := by
  constructor
  · decide
  · decide

/-- Claim C1 (amended): on the comparison path the combined result is the
per-entity top-2 concatenation truncated to 5, returned without any
further rerank pass over the combined list, while the rerank calls made
are exactly one per derived sub-query whose fused pool is non-empty (the
sub-retrievals themselves do rerank). -/
theorem C1_comparison_rerank_per_entity (env : RetrievalEnv)
    (cfg : HybridConfig) (query : PStr) (filters : Option Dict)
    (topk : Option Nat) (h : takesComparisonPath query = true) :
    (hybridRetrieve env cfg query filters topk).1
        = (((fanOutQueries query).map fun vq =>
            (retrieveSingle env cfg vq filters (some 3)).1.take 2).flatten).take 5 ∧
    (hybridRetrieve env cfg query filters topk).2
        = (fanOutQueries query).countP fun vq =>
            !(mergedPool env cfg vq filters).isEmpty := by
  rw [hybridRetrieve_dispatch, if_pos h]
  unfold comparisonRetrieve
  rw [foldFan env cfg filters (matchedVehicles query) (lowerStr query) [] 0]
  constructor
  · simp [fanOutQueries]
  · simp [fanOutQueries, sum_subcalls_eq_countP]

theorem C1_witness :
    (hybridRetrieve envEcho1 defaultConfig (pys "compare civic vs camry")
        none none).1
      = (((fanOutQueries (pys "compare civic vs camry")).map fun vq =>
          (retrieveSingle envEcho1 defaultConfig vq none (some 3)).1.take 2).flatten).take 5 ∧
    (hybridRetrieve envEcho1 defaultConfig (pys "compare civic vs camry")
        none none).2
      = (fanOutQueries (pys "compare civic vs camry")).countP fun vq =>
          !(mergedPool envEcho1 defaultConfig vq none).isEmpty :=
  C1_comparison_rerank_per_entity envEcho1 defaultConfig
    (pys "compare civic vs camry") none none (by decide)

/-- Claim C2's failing input, evaluated on the code: on the comparison
query `"compare civic vs camry"` the derived sub-queries are
`" Honda Civic"` and `" Toyota Camry"`; the first sub-retrieval's fused
candidate pool holds 4 candidates (not at most 3), the sub-retrieval
returns 4 results, and passing `top_k=3` to `_retrieve_single` yields the
very same computation as passing nothing — the parameter is dead. -/
theorem C2_topk_dead_eval :
    takesComparisonPath (pys "compare civic vs camry") = true ∧
    fanOutQueries (pys "compare civic vs camry")
      = [pys " Honda Civic", pys " Toyota Camry"] ∧
    (mergedPool envEcho4 defaultConfig (pys " Honda Civic") none).length = 4 ∧
    (retrieveSingle envEcho4 defaultConfig (pys " Honda Civic") none
      (some 3)).1.length = 4 ∧
    retrieveSingle envEcho4 defaultConfig (pys " Honda Civic") none (some 3)
      = retrieveSingle envEcho4 defaultConfig (pys " Honda Civic") none none := by
  refine ⟨by decide, by decide, by decide, by decide, rfl⟩

/-- Claim C4 fails as stated: with `rerank_n = 1` the comparison path
returns 2 results. -/
theorem C4_counterexample :
    cfgRerank1.rerankN = 1 ∧
    (hybridRetrieve envEcho1 cfgRerank1
      (pys "compare civic vs camry") none none).1.length = 2 := by
  constructor
  · rfl
  · decide

/-- Claim C4 (amended): assuming the rerank service returns at most the
requested number of results, `HybridRetriever.retrieve` returns at most
`max rerank_n 5` chunks — the normal path is bounded by `rerank_n`, the
comparison path by 5 (which exceeds `rerank_n` when `rerank_n < 5`). -/
theorem C4_length_le_max (env : RetrievalEnv) (cfg : HybridConfig)
    (query : PStr) (filters : Option Dict) (topk : Option Nat)
    (hsvc : ∀ q docs n, (env.rerankService q docs n).length ≤ n) :
    (hybridRetrieve env cfg query filters topk).1.length ≤ max cfg.rerankN 5 := by
  rw [hybridRetrieve_dispatch]
  split
  · unfold comparisonRetrieve
    exact le_trans (List.length_take_le 5 _) (le_max_right _ _)
  · exact le_trans
      (rerank_length_le env cfg.rerankN query (mergedPool env cfg query filters) hsvc)
      (le_max_left _ _)

theorem C4_witness :
    (hybridRetrieve envEcho1 defaultConfig
      (pys "oil capacity civic") none none).1.length ≤ max defaultConfig.rerankN 5 :=
  C4_length_le_max envEcho1 defaultConfig (pys "oil capacity civic") none none
    (by
      intro q docs n
      simp [envEcho1, svcEcho])

/-- Claim C7 fails as stated: the query `"compare f150 and f-150"`
resolves only *one* distinct canonical entity (both aliases map to
`Ford F-150`), yet the comparison fan-out path is taken — observably: the
hybrid result differs from the single-query path's result.  The branch
counts alias matches with multiplicity, not distinct canonical
entities. -/
theorem C7_counterexample :
    takesComparisonPath (pys "compare f150 and f-150") = true ∧
    (dedupFirst (matchedVehicles (pys "compare f150 and f-150"))).length = 1 ∧
    (hybridRetrieve envEcho1 defaultConfig
      (pys "compare f150 and f-150") none none).1.length = 2 ∧
    (retrieveSingle envEcho1 defaultConfig
      (pys "compare f150 and f-150") none none).1.length = 1 := by
  refine ⟨by decide, by decide, by decide, by decide⟩

/-- Claim C7 (amended): `HybridRetriever.retrieve` takes the comparison
fan-out path iff some trigger word is a substring of the lowercased query
and at least two entity-alias matches occur, counted with multiplicity
over the alias table (two aliases of the same canonical entity also
trigger the path); otherwise the normal single-query path runs. -/
theorem C7_comparison_path_condition (env : RetrievalEnv) (cfg : HybridConfig)
    (query : PStr) (filters : Option Dict) (topk : Option Nat) :
    hybridRetrieve env cfg query filters topk
      = if (comparisonKeywords.any fun kw => containsSub (lowerStr query) kw)
            ∧ 2 ≤ (vehicleTerms.filter fun p => containsSub (lowerStr query) p.1).length
        then comparisonRetrieve env cfg query filters
        else retrieveSingle env cfg query filters topk := by
  rw [hybridRetrieve_dispatch]
  have hcond : takesComparisonPath query = true ↔
      ((comparisonKeywords.any fun kw => containsSub (lowerStr query) kw)
        ∧ 2 ≤ (vehicleTerms.filter fun p => containsSub (lowerStr query) p.1).length) := by
    unfold takesComparisonPath isComparisonQuery matchedVehicles
    rw [List.length_map]
    simp
  by_cases h : takesComparisonPath query = true
  · rw [if_pos h, if_pos (hcond.mp h)]
  · rw [if_neg h, if_neg fun hc => h (hcond.mpr hc)]

end AutomotiveGpt
